import Mathlib

/-!
# Verification of the hogwarts routing/dispatch core

Shallow embedding of the HTTP request router and dispatcher of this repository
(`server.mjs` and the utilities module it imports, providing `parseFormData`,
`redirect`, `json`).  JavaScript strings are modelled as `List Char`.  The
Node.js path functions (`path.join`, `path.extname`) are modelled for the
absolute paths they are applied to here.  `fs.access`/`fs.readFile` are
modelled by two boolean file-existence snapshots (one per observation), so the
check-then-read sequence of the static branch is represented faithfully,
including the case where the file disappears between the two operations.
Handlers are identified by name; the dispatcher outcome records which handler
is invoked with which extracted parameters.
-/

set_option maxHeartbeats 1000000

/-- JavaScript strings are modelled as lists of characters. -/
abbrev Str := List Char

/-- Turn a Lean string literal into the `Str` it denotes. -/
def str (s : String) : Str := s.data

/-- JavaScript `String.prototype.startsWith`. -/
def startsWithL : Str → Str → Bool
  | _, [] => true
  | [], _ :: _ => false
  | c :: s, d :: t => c == d && startsWithL s t

/-- JavaScript `String.prototype.endsWith`. -/
def endsWithL (s suffixStr : Str) : Bool :=
  startsWithL s.reverse suffixStr.reverse

/-- Strip an exact literal from the front of a string, returning the remainder
(`none` when the literal is not there).  Used to model the anchored matching of
the literal part of a compiled route pattern. -/
def stripLit : Str → Str → Option Str
  | s, [] => some s
  | [], _ :: _ => none
  | c :: s, d :: t => if c = d then stripLit s t else none

/-- JavaScript `String.prototype.split` with a one-character separator. -/
def splitOnChar (sep : Char) : Str → List Str
  | [] => [[]]
  | c :: rest =>
    let r := splitOnChar sep rest
    if c == sep then [] :: r
    else
      match r with
      | seg :: segs => (c :: seg) :: segs
      | [] => [[c]]

/-- Join path segments back with `/`. -/
def joinSegs : List Str → Str
  | [] => []
  | [seg] => seg
  | seg :: rest => seg ++ '/' :: joinSegs rest

/-- Stack-based resolution of `.` and `..` segments, as Node's path
normalization performs for an absolute path: `..` at the root is dropped. -/
def normSegs : List Str → List Str → List Str
  | [], acc => acc.reverse
  | seg :: rest, acc =>
    if seg = [] ∨ seg = str "." then normSegs rest acc
    else if seg = str ".." then normSegs rest acc.tail
    else normSegs rest (seg :: acc)

/-- Node `path.normalize` on an absolute POSIX path: resolve `.` and `..`,
collapse repeated slashes, keep a trailing slash when the input had one. -/
def normalizeAbs (p : Str) : Str :=
  let core :=
    match normSegs (splitOnChar '/' p) [] with
    | [] => str "/"
    | segs => '/' :: joinSegs segs
  if endsWithL p (str "/") && core ≠ str "/" then core ++ str "/" else core

/-- Node `path.join` for an absolute first argument (the only way it is used
here: `path.join(process.cwd(), "public")` and `path.join(PUBLIC_PATH, rel)`).
An empty second argument is ignored by `join`. -/
def pathJoin (a b : Str) : Str :=
  if b = [] then normalizeAbs a else normalizeAbs (a ++ '/' :: b)

/-- The configured public root: `path.join(process.cwd(), "public")`,
parameterized by the current working directory. -/
def PUBLIC_PATH (cwd : Str) : Str := pathJoin cwd (str "public")

/-- JavaScript `String.prototype.replace` with a plain-string pattern and an
empty replacement: remove the first occurrence of the pattern. -/
def replaceFirstEmpty : Str → Str → Str
  | [], _ => []
  | c :: rest, pat =>
    if startsWithL (c :: rest) pat then (c :: rest).drop pat.length
    else c :: replaceFirstEmpty rest pat

/-- Node `path.extname`: the suffix of the last path segment from its last
dot, empty when the only dot is the segment's leading character. -/
def extname (p : Str) : Str :=
  let base := (splitOnChar '/' p).getLastD []
  let revTail := base.reverse.takeWhile (fun c => !(c == '.'))
  if revTail.length + 1 < base.length then '.' :: revTail.reverse else []

/-- The extension key computed by the static branch:
`path.extname(filePath).slice(1).toLowerCase()`. -/
def extSlice (p : Str) : Str := ((extname p).drop 1).map Char.toLower

/-- Own-property lookup in the `MIME_TYPES` object literal. -/
def MIME_TYPES (ext : Str) : Option Str :=
  if ext = str "default" then some (str "application/octet-stream")
  else if ext = str "html" then some (str "text/html; charset=utf-8")
  else if ext = str "js" then some (str "text/javascript")
  else if ext = str "mjs" then some (str "text/javascript")
  else if ext = str "css" then some (str "text/css")
  else if ext = str "png" then some (str "image/png")
  else if ext = str "jpg" then some (str "image/jpg")
  else if ext = str "jpeg" then some (str "image/jpeg")
  else if ext = str "gif" then some (str "image/gif")
  else if ext = str "ico" then some (str "image/x-icon")
  else if ext = str "svg" then some (str "image/svg+xml")
  else none

/-- `MIME_TYPES[fileExt] ?? MIME_TYPES.default`. -/
def mimeTypeFor (ext : Str) : Str :=
  (MIME_TYPES ext).getD (str "application/octet-stream")

/-- The character class `[\w.]` of both route-compilation regexes:
ASCII word characters and the dot. -/
def wordDot (c : Char) : Bool := c.isAlpha || c.isDigit || c == '_' || c == '.'

/-- An ASCII word character (`\w`). -/
def wordChar (c : Char) : Bool := c.isAlpha || c.isDigit || c == '_'

/-- A character with no special meaning in a JavaScript regular expression.
Literal template segments are embedded into the compiled pattern unescaped,
so the pattern-matching model is stated for templates whose literal parts
consist of such characters only (true of every template in the route table). -/
def regexPlainChar (c : Char) : Bool :=
  !(['.', '*', '+', '?', '(', ')', '[', ']', '\x7b', '\x7d', '|', '^', '$', '\\'].contains c)

/-- Locate the first match of the regex `/:([\w.]+)/` in a template: the first
`:` followed by at least one `[\w.]` character, with the greedy-maximal
captured name.  Returns the text before the match, the name, and the text
after the match. -/
def findParam : Str → Option (Str × Str × Str)
  | [] => none
  | c :: rest =>
    if c = ':' ∧ rest.takeWhile wordDot ≠ [] then
      some ([], rest.takeWhile wordDot, rest.dropWhile wordDot)
    else
      (findParam rest).map (fun pnp => (c :: pnp.1, pnp.2.1, pnp.2.2))

/-- The shape of a compiled route pattern
`new RegExp("^" + path.replace(/:([\w.]+)/, "(?<$1>[\w.]+)") + "$")`:
the single non-global substitution turns only the first `:name` into a named
capture group, so the compiled regex is either all literal text, or literal
text around one `(?<name>[\w.]+)` group. -/
inductive Pattern where
  | lit (t : Str)
  | param (preLit : Str) (name : Str) (postLit : Str)
deriving DecidableEq, Repr

/-- Compile a route path template into its pattern, mirroring the single
non-global `String.prototype.replace` call of the route-table startup loop. -/
def compilePattern (t : Str) : Pattern :=
  match findParam t with
  | none => .lit t
  | some (preLit, name, postLit) => .param preLit name postLit

/-- `route.pattern.exec(pathname)`, returning the named-capture map
(`match.groups ?? {}` as an association list).  The pattern is anchored at
both ends, so literal parts must match exactly and the capture group is the
greedy-maximal run of `[\w.]` characters.  This models the regex semantics for
patterns produced by `compilePattern` from templates whose literal parts
contain no regex metacharacters (true of every template in the route table);
greediness needs no backtracking because the text after a capture group never
begins with a `[\w.]` character (the captured name is maximal). -/
def patMatch : Pattern → Str → Option (List (Str × Str))
  | .lit t, p => if p = t then some [] else none
  | .param preLit name postLit, p =>
    match stripLit p preLit with
    | none => none
    | some rest =>
      if rest.takeWhile wordDot ≠ [] ∧ rest.dropWhile wordDot = postLit then
        some [(name, rest.takeWhile wordDot)]
      else none

/-- One entry of the route table: path template, allowed methods, handler.
Handlers are identified by their function names.  The compiled pattern is
derived once at startup from the template and never recomputed; here it is
recovered by `compilePattern route.path`. -/
structure Route where
  path : Str
  methods : List Str
  handlerName : String
deriving DecidableEq, Repr

/-- The route table, in declaration order. -/
def routes : List Route :=
  [⟨str "/", [str "GET"], "index"⟩,
   ⟨str "/students", [str "GET", str "POST"], "studentList"⟩,
   ⟨str "/students/delete", [str "POST"], "studentDelete"⟩,
   ⟨str "/students/:id/change", [str "GET", str "POST"], "studentChange"⟩,
   ⟨str "/students/download", [str "GET"], "studentsDownload"⟩,
   ⟨str "/students/search", [str "GET"], "studentsSearch"⟩,
   ⟨str "/api/students", [str "GET"], "studentsAPISearch"⟩]

/-- The response written by the `redirect` helper: status code, `Location`
header, body. -/
structure RedirectResponse where
  status : Nat
  location : Str
  body : Str
deriving DecidableEq, Repr

/-- The `redirect(request, response, path, statusCode = 302)` helper: write
the given status (302 when none is given), a `Location` header built as
an absolute http URL from the request's Host header and the given path,
and an empty body. -/
def redirect (host p : Str) (statusCode : Option Nat) : RedirectResponse :=
  { status := statusCode.getD 302,
    location := str "http://" ++ host ++ p,
    body := [] }

/-- What the dispatcher does with a request: issue a redirect, serve a static
file's bytes with a content type (status 200), answer one of the two 404
pages, answer 405 with an empty body, or invoke exactly one handler with the
extracted path parameters. -/
inductive Outcome where
  | redirectTo (r : RedirectResponse)
  | staticFile (mimeType : Str) (filePath : Str)
  | notFoundStatic
  | invoke (handlerName : String) (params : List (Str × Str))
  | methodNotAllowed
  | notFoundPage
deriving DecidableEq, Repr

/-- Failure of an `await`ed file operation that no surrounding code catches:
the promise returned by the request listener rejects. -/
inductive ReadErr where
  | readFileFailed
deriving DecidableEq, Repr

/-- The parts of an incoming request the dispatcher reads: the raw URL
(path plus optional query string), the method, and the Host header. -/
structure Request where
  url : Str
  method : Str
  host : Str
deriving DecidableEq, Repr

/-- `url.parse(request.url).pathname`: the part of the raw URL before any
query string or fragment. -/
def pathnameOf (u : Str) : Str :=
  u.takeWhile (fun c => !(c == '?' || c == '#'))

/-- The route-table scan of the dispatcher: first pattern match on the
pathname wins; a matching route answers 405 when the method is not allowed,
otherwise its handler is invoked with `match.groups ?? {}`; when no pattern
matches, the scan falls through to the 404 page. -/
def scanRoutes (method pathname : Str) : List Route → Outcome
  | [] => .notFoundPage
  | r :: rest =>
    match patMatch (compilePattern r.path) pathname with
    | none => scanRoutes method pathname rest
    | some params =>
      if r.methods.contains method then .invoke r.handlerName params
      else .methodNotAllowed

/-- The `handleRequest` request listener, parameterized by the route table it
closes over, two file-existence snapshots (one observed by `fs.access`, one by
`fs.readFile`), and the working directory determining `PUBLIC_PATH`:
1. a raw URL ending in `/` is answered by `redirect(..., url.slice(0,-1), 301)`;
2. a raw URL starting with `/public/` is resolved by joining the remainder
   onto `PUBLIC_PATH`; unless the resolved path passes the
   `startsWith(PUBLIC_PATH)` check and the `fs.access` existence check, the
   static 404 is written; otherwise the file is read and served with its
   extension's MIME type — a failing read rejects with no handler in scope;
3. otherwise the route table is scanned against the pathname. -/
def handleRequest (routeTable : List Route) (fsAccess fsRead : Str → Bool)
    (cwd : Str) (req : Request) : Except ReadErr Outcome :=
  if endsWithL req.url (str "/") then
    .ok (.redirectTo (redirect req.host req.url.dropLast (some 301)))
  else if startsWithL req.url (str "/public/") then
    let filePath := pathJoin (PUBLIC_PATH cwd) (replaceFirstEmpty req.url (str "/public/"))
    let fileFound := startsWithL filePath (PUBLIC_PATH cwd) && fsAccess filePath
    if fileFound = false then .ok .notFoundStatic
    else if fsRead filePath then
      .ok (.staticFile (mimeTypeFor (extSlice filePath)) filePath)
    else .error .readFileFailed
  else .ok (scanRoutes req.method (pathnameOf req.url) routeTable)

/-- The server's request handling: `handleRequest` closed over the program's
route table. -/
def serverHandle (fsAccess fsRead : Str → Bool) (cwd : Str)
    (req : Request) : Except ReadErr Outcome :=
  handleRequest routes fsAccess fsRead cwd req

/-- Numeric value of a hexadecimal digit. -/
def hexVal (c : Char) : Option Nat :=
  if '0' ≤ c ∧ c ≤ '9' then some (c.toNat - 48)
  else if 'A' ≤ c ∧ c ≤ 'F' then some (c.toNat - 55)
  else if 'a' ≤ c ∧ c ≤ 'f' then some (c.toNat - 87)
  else none

/-- The `application/x-www-form-urlencoded` value decoding performed by
`URLSearchParams`: `+` becomes a space and `%HH` becomes the character with
that code; a malformed `%` sequence is kept verbatim.  (Decoding is modelled
per code unit; multi-byte UTF-8 percent sequences are not reassembled — every
input in this development is ASCII.) -/
def percentDecodePlus : Str → Str
  | [] => []
  | '%' :: a :: b :: rest =>
    (match hexVal a, hexVal b with
     | some hi, some lo => Char.ofNat (16 * hi + lo) :: percentDecodePlus rest
     | _, _ => '%' :: percentDecodePlus (a :: b :: rest))
  | '+' :: rest => ' ' :: percentDecodePlus rest
  | c :: rest => c :: percentDecodePlus rest

/-- Split one `name=value` piece at its first `=` (no `=` means an empty
value) and decode both sides. -/
def parsePair (piece : Str) : Str × Str :=
  (percentDecodePlus (piece.takeWhile (fun c => !(c == '='))),
   percentDecodePlus ((piece.dropWhile (fun c => !(c == '='))).drop 1))

/-- `new URLSearchParams(body)`: strip one leading `?`, split on `&`, skip
empty pieces, and decode each `name=value` pair, preserving order and
duplicates. -/
def parseURLSearchParams (init : Str) : List (Str × Str) :=
  let s := if startsWithL init (str "?") then init.drop 1 else init
  ((splitOnChar '&' s).filter (fun piece => !piece.isEmpty)).map parsePair

/-- `parseFormData`: the fully buffered body is decoded by `URLSearchParams`
and every pair is `append`ed into a `FormData` in iteration order, so the
`FormData` holds the same pair list. -/
def parseFormData (body : Str) : List (Str × Str) :=
  parseURLSearchParams body

/-- `FormData.prototype.get`: the value of the first entry with the given
name, or null (here `none`) when there is no such entry. -/
def formDataGet (fd : List (Str × Str)) (k : Str) : Option Str :=
  (fd.find? (fun p => p.1 == k)).map Prod.snd

/-- Modelled from the spec: the security invariant of §4.3, which is stated
in the spec but nowhere implemented as such in the source — the resolved
absolute path is a descendant of (or equal to) the root directory. -/
def specIsDescendant (p root : Str) : Bool :=
  p == root || startsWithL p (root ++ str "/")

/-! ## Helper lemmas about the pattern machinery -/

/-- Appending a run that wholly satisfies the predicate to one whose head
fails it: the run is what gets taken. -/
theorem takeWhile_append_all (p : Char → Bool) (l₁ l₂ : Str)
    (h₁ : l₁.takeWhile p = l₁) (h₂ : l₂.takeWhile p = []) :
    (l₁ ++ l₂).takeWhile p = l₁ := by
  induction l₁ with
  | nil => simpa using h₂
  | cons c l ih =>
    rw [List.takeWhile_cons] at h₁
    by_cases hp : p c = true
    · rw [if_pos hp] at h₁
      have hl : l.takeWhile p = l := by injection h₁
      simp [List.takeWhile_cons, hp, ih hl]
    · rw [if_neg hp] at h₁
      simp at h₁

/-- Companion of `takeWhile_append_all` for the dropped remainder. -/
theorem dropWhile_append_all (p : Char → Bool) (l₁ l₂ : Str)
    (h₁ : l₁.takeWhile p = l₁) (h₂ : l₂.takeWhile p = []) :
    (l₁ ++ l₂).dropWhile p = l₂ := by
  induction l₁ with
  | nil =>
    cases l₂ with
    | nil => rfl
    | cons d r =>
      rw [List.takeWhile_cons] at h₂
      by_cases hd : p d = true
      · rw [if_pos hd] at h₂
        simp at h₂
      · simp [List.dropWhile_cons, hd]
  | cons c l ih =>
    rw [List.takeWhile_cons] at h₁
    by_cases hp : p c = true
    · have hl : l.takeWhile p = l := by rw [if_pos hp] at h₁; injection h₁
      simp [List.dropWhile_cons, hp, ih hl]
    · rw [if_neg hp] at h₁
      simp at h₁

/-- An append takes nothing when both sides take nothing. -/
theorem takeWhile_append_nil (p : Char → Bool) (l₁ l₂ : Str)
    (h₁ : l₁.takeWhile p = []) (h₂ : l₂.takeWhile p = []) :
    (l₁ ++ l₂).takeWhile p = [] := by
  cases l₁ with
  | nil => simpa using h₂
  | cons c l =>
    rw [List.takeWhile_cons] at h₁
    by_cases hp : p c = true
    · rw [if_pos hp] at h₁
      simp at h₁
    · simp [List.takeWhile_cons, hp]

/-- Stripping a literal off a string that begins with it. -/
theorem stripLit_append (l₁ l₂ : Str) : stripLit (l₁ ++ l₂) l₁ = some l₂ := by
  induction l₁ with
  | nil => simp [stripLit]
  | cons c l ih => simp [stripLit, ih]

/-- A successful strip recovers the decomposition of the input. -/
theorem stripLit_eq (s t r : Str) (h : stripLit s t = some r) : s = t ++ r := by
  induction t generalizing s with
  | nil =>
    simp only [stripLit, Option.some.injEq] at h
    simp [h]
  | cons d t' ih =>
    cases s with
    | nil => simp [stripLit] at h
    | cons c s' =>
      simp only [stripLit] at h
      split at h
      next hcd =>
        rw [List.cons_append, ← ih s' h, hcd]
      next => exact Option.noConfusion h

/-- The single substitution of the route-compilation regex locates the first
`:name` occurrence: prefixing a parameter-free text, writing `:`, a nonempty
`[\w.]` name, and a remainder that does not extend the name, is found exactly
there. -/
theorem findParam_append (preT name postT : Str)
    (hpre : findParam preT = none)
    (hname : name.takeWhile wordDot = name) (hne : name ≠ [])
    (hpost : postT.takeWhile wordDot = []) :
    findParam (preT ++ ':' :: (name ++ postT)) = some (preT, name, postT) := by
  induction preT with
  | nil =>
    have ht : (name ++ postT).takeWhile wordDot = name :=
      takeWhile_append_all _ _ _ hname hpost
    have hd : (name ++ postT).dropWhile wordDot = postT :=
      dropWhile_append_all _ _ _ hname hpost
    simp only [List.nil_append, findParam, ht, hd]
    rw [if_pos ⟨trivial, hne⟩]
  | cons c rest ih =>
    simp only [findParam] at hpre
    by_cases hc : (c = ':' ∧ rest.takeWhile wordDot ≠ [])
    · rw [if_pos hc] at hpre
      exact Option.noConfusion hpre
    · rw [if_neg hc] at hpre
      have hrest : findParam rest = none := Option.map_eq_none'.mp hpre
      have hC2 : ¬(c = ':' ∧ (rest ++ ':' :: (name ++ postT)).takeWhile wordDot ≠ []) := by
        rintro ⟨hcc, hnz⟩
        have hrw : rest.takeWhile wordDot = [] := by
          by_contra hne2
          exact hc ⟨hcc, hne2⟩
        have h0 : (':' :: (name ++ postT)).takeWhile wordDot = [] := by
          rw [List.takeWhile_cons, if_neg (by decide : ¬ wordDot ':' = true)]
        exact hnz (takeWhile_append_nil _ _ _ hrw h0)
      simp only [List.cons_append, findParam, List.append_eq]
      rw [if_neg hC2, ih hrest]
      rfl

/-- A compiled one-parameter pattern matches the literal skeleton with a
nonempty `[\w.]` run substituted, capturing exactly that run. -/
theorem patMatch_param_hit (preT name postT s : Str)
    (hsW : s.takeWhile wordDot = s) (hsne : s ≠ [])
    (hpost : postT.takeWhile wordDot = []) :
    patMatch (.param preT name postT) (preT ++ (s ++ postT)) = some [(name, s)] := by
  have ht := takeWhile_append_all wordDot s postT hsW hpost
  have hd := dropWhile_append_all wordDot s postT hsW hpost
  simp only [patMatch, stripLit_append, ht, hd]
  rw [if_pos ⟨hsne, trivial⟩]

/-- A compiled one-parameter pattern rejects the skeleton with nothing in the
parameter position: the capture group needs at least one character. -/
theorem patMatch_param_empty (preT name postT : Str)
    (hpost : postT.takeWhile wordDot = []) :
    patMatch (.param preT name postT) (preT ++ postT) = none := by
  simp only [patMatch, stripLit_append]
  rw [if_neg]
  rintro ⟨h1, _⟩
  exact h1 hpost

/-- Inversion: any path accepted by a compiled one-parameter pattern is the
literal skeleton around the captured run — in particular the trailing literal,
which may itself contain further `:name` text, appears verbatim. -/
theorem patMatch_param_inv (preT name postT p : Str) (caps : List (Str × Str))
    (h : patMatch (.param preT name postT) p = some caps) :
    ∃ s, caps = [(name, s)] ∧ p = preT ++ (s ++ postT) := by
  simp only [patMatch] at h
  cases hst : stripLit p preT with
  | none =>
    simp only [hst] at h
    exact Option.noConfusion h
  | some rest =>
    simp only [hst] at h
    by_cases hcond : (rest.takeWhile wordDot ≠ [] ∧ rest.dropWhile wordDot = postT)
    · rw [if_pos hcond] at h
      have hc : caps = [(name, rest.takeWhile wordDot)] := by
        injection h with h'
        exact h'.symm
      refine ⟨rest.takeWhile wordDot, hc, ?_⟩
      rw [stripLit_eq p preT rest hst]
      congr 1
      rw [← hcond.2]
      exact (List.takeWhile_append_dropWhile wordDot rest).symm
    · rw [if_neg hcond] at h
      exact Option.noConfusion h

/-- Every `\w` character is a `[\w.]` character. -/
theorem wordChar_wordDot (c : Char) (h : wordChar c = true) : wordDot c = true := by
  simp only [wordChar, Bool.or_eq_true] at h
  simp only [wordDot, Bool.or_eq_true]
  tauto

/-- Routes whose patterns reject the pathname are skipped by the scan. -/
theorem scanRoutes_append_of_no_match (method pn : Str) (rl₁ rl₂ : List Route)
    (h : ∀ r' ∈ rl₁, patMatch (compilePattern r'.path) pn = none) :
    scanRoutes method pn (rl₁ ++ rl₂) = scanRoutes method pn rl₂ := by
  induction rl₁ with
  | nil => rfl
  | cons r rest ih =>
    have hr : patMatch (compilePattern r.path) pn = none := h r (List.mem_cons_self r rest)
    have hrest : ∀ r' ∈ rest, patMatch (compilePattern r'.path) pn = none :=
      fun r' hm => h r' (List.mem_cons_of_mem r hm)
    simp only [List.cons_append, scanRoutes, hr]
    exact ih hrest

/-- Lookup by `find?` lands on the first entry carrying the key. -/
theorem find?_first_key (k v : Str) (l₁ l₂ : List (Str × Str))
    (hk : ∀ q ∈ l₁, q.1 ≠ k) :
    (l₁ ++ (k, v) :: l₂).find? (fun q => q.1 == k) = some (k, v) := by
  induction l₁ with
  | nil => exact List.find?_cons_of_pos _ (by simp)
  | cons q rest ih =>
    have hq : (q.1 == k) = false := beq_eq_false_iff_ne.mpr (hk q (List.mem_cons_self q rest))
    rw [List.cons_append, List.find?_cons_of_neg _ (by simp [hq])]
    exact ih (fun q' h' => hk q' (List.mem_cons_of_mem _ h'))

/-! ## The claims -/

/-- C4: for every route template with exactly one named parameter `:name`
(whose name forms a valid capture-group identifier) and plain literal parts,
the compiled pattern matches the literal skeleton with any nonempty sequence
of `[A-Za-z0-9_.]` characters substituted in the parameter position, binding
`name` to exactly that substring, and rejects the skeleton with an empty
sequence there. -/
theorem route_single_param_capture
    (preT name postT s : Str)
    (hpre : findParam preT = none)
    (hpreP : ∀ c ∈ preT, regexPlainChar c = true)
    (hpostP : ∀ c ∈ postT, regexPlainChar c = true)
    (hnameW : ∀ c ∈ name, wordChar c = true)
    (hnameHead : (name.take 1).all (fun c => c.isAlpha || c == '_') = true)
    (hne : name ≠ [])
    (hpost : postT.takeWhile wordDot = [])
    (hpostNoParam : findParam postT = none)
    (hsW : ∀ c ∈ s, wordDot c = true)
    (hsne : s ≠ []) :
    patMatch (compilePattern (preT ++ ':' :: (name ++ postT))) (preT ++ (s ++ postT))
      = some [(name, s)]
    ∧ patMatch (compilePattern (preT ++ ':' :: (name ++ postT))) (preT ++ postT) = none := by
  have hnameTW : name.takeWhile wordDot = name :=
    List.takeWhile_eq_self_iff.mpr (fun c hc => wordChar_wordDot c (hnameW c hc))
  have hsTW : s.takeWhile wordDot = s := List.takeWhile_eq_self_iff.mpr hsW
  have hcomp : compilePattern (preT ++ ':' :: (name ++ postT)) = .param preT name postT := by
    simp only [compilePattern, findParam_append preT name postT hpre hnameTW hne hpost]
  rw [hcomp]
  exact ⟨patMatch_param_hit preT name postT s hsTW hsne hpost,
         patMatch_param_empty preT name postT hpost⟩

/-- Witness for C4 at the route template `/students/:id/change` of the route
table and the path `/students/7/change`. -/
theorem route_single_param_capture_witness :
    patMatch (compilePattern (str "/students/" ++ ':' :: (str "id" ++ str "/change")))
        (str "/students/" ++ (str "7" ++ str "/change")) = some [(str "id", str "7")]
    ∧ patMatch (compilePattern (str "/students/" ++ ':' :: (str "id" ++ str "/change")))
        (str "/students/" ++ str "/change") = none :=
  route_single_param_capture (str "/students/") (str "id") (str "/change") (str "7")
    (by decide) (by decide) (by decide) (by decide) (by decide) (by decide)
    (by decide) (by decide) (by decide) (by decide)

/-- C6: in a template with two or more `:name` segments, the single
non-global substitution turns only the first into a capture group — the
compiled pattern keeps every later `:name` occurrence as literal trailing
text, so any path it accepts must contain that text verbatim (at most one
named parameter per route compiles into a capture). -/
theorem route_multi_param_first_only
    (preT name postT : Str)
    (hpre : findParam preT = none)
    (hpreP : ∀ c ∈ preT, regexPlainChar c = true)
    (hpostP : ∀ c ∈ postT, regexPlainChar c = true)
    (hnameW : ∀ c ∈ name, wordChar c = true)
    (hnameHead : (name.take 1).all (fun c => c.isAlpha || c == '_') = true)
    (hne : name ≠ [])
    (hpost : postT.takeWhile wordDot = [])
    (hmulti : (findParam postT).isSome = true) :
    compilePattern (preT ++ ':' :: (name ++ postT)) = .param preT name postT
    ∧ ∀ p caps,
        patMatch (compilePattern (preT ++ ':' :: (name ++ postT))) p = some caps →
        ∃ s, caps = [(name, s)] ∧ p = preT ++ (s ++ postT) := by
  have hnameTW : name.takeWhile wordDot = name :=
    List.takeWhile_eq_self_iff.mpr (fun c hc => wordChar_wordDot c (hnameW c hc))
  have hcomp : compilePattern (preT ++ ':' :: (name ++ postT)) = .param preT name postT := by
    simp only [compilePattern, findParam_append preT name postT hpre hnameTW hne hpost]
  refine ⟨hcomp, fun p caps h => ?_⟩
  rw [hcomp] at h
  exact patMatch_param_inv preT name postT p caps h

/-- Witness for C6 at the two-parameter template `/x/:a/:b`: the second
`:b` stays literal, so the only accepted paths contain `/:b` verbatim. -/
theorem route_multi_param_first_only_witness :
    compilePattern (str "/x/" ++ ':' :: (str "a" ++ str "/:b"))
      = .param (str "/x/") (str "a") (str "/:b")
    ∧ ∀ p caps,
        patMatch (compilePattern (str "/x/" ++ ':' :: (str "a" ++ str "/:b"))) p = some caps →
        ∃ s, caps = [(str "a", s)] ∧ p = str "/x/" ++ (s ++ str "/:b") :=
  route_multi_param_first_only (str "/x/") (str "a") (str "/:b")
    (by decide) (by decide) (by decide) (by decide) (by decide) (by decide)
    (by decide) (by decide)

/-- C5: when the first route whose pattern matches the pathname does not
allow the request's method, the dispatcher answers 405 (empty body), invokes
no handler, and never tests the routes after it — the conclusion does not
depend on `rl₂`, even when a later route would match both path and method. -/
theorem dispatch_405_first_path_match
    (rl₁ rl₂ : List Route) (r : Route) (fsA fsR : Str → Bool) (cwd : Str) (req : Request)
    (hslash : endsWithL req.url (str "/") = false)
    (hpub : startsWithL req.url (str "/public/") = false)
    (hskip : ∀ r' ∈ rl₁, patMatch (compilePattern r'.path) (pathnameOf req.url) = none)
    (hmatch : (patMatch (compilePattern r.path) (pathnameOf req.url)).isSome = true)
    (hmeth : r.methods.contains req.method = false) :
    handleRequest (rl₁ ++ r :: rl₂) fsA fsR cwd req = .ok .methodNotAllowed := by
  obtain ⟨ps, hps⟩ := Option.isSome_iff_exists.mp hmatch
  simp only [handleRequest, hslash, hpub, Bool.false_eq_true, if_false]
  rw [scanRoutes_append_of_no_match _ _ _ _ hskip]
  simp only [scanRoutes, hps, hmeth, Bool.false_eq_true, if_false]

/-- Witness for C5: `GET /students/delete` hits `/students/delete` (POST
only) and is answered 405, although a later route in the table would accept
the path with method GET. -/
theorem dispatch_405_first_path_match_witness :
    handleRequest
        ([⟨str "/", [str "GET"], "index"⟩,
          ⟨str "/students", [str "GET", str "POST"], "studentList"⟩]
          ++ ⟨str "/students/delete", [str "POST"], "studentDelete"⟩ ::
            [⟨str "/students/:id/change", [str "GET", str "POST"], "studentChange"⟩,
             ⟨str "/students/download", [str "GET"], "studentsDownload"⟩,
             ⟨str "/students/search", [str "GET"], "studentsSearch"⟩,
             ⟨str "/api/students", [str "GET"], "studentsAPISearch"⟩,
             ⟨str "/students/delete", [str "GET"], "laterShadowed"⟩])
        (fun _ => false) (fun _ => false) (str "/srv")
        ⟨str "/students/delete", str "GET", str "h"⟩
      = .ok .methodNotAllowed :=
  dispatch_405_first_path_match _ _ _ _ _ _ _
    (by decide) (by decide) (by decide) (by decide) (by decide)

/-- C3 counterexample: in the body `a=1&a=2` the field `a` occurs twice and
the last occurrence carries `2`, yet the lookup produced by the body parser
yields `1` — the value of the FIRST occurrence — because `FormData.append`
keeps every entry and `FormData.get` returns the first one.  Last-write-wins,
as the claim states it, is false. -/
theorem formData_last_write_counterexample :
    parseFormData (str "a=1&a=2") = [(str "a", str "1"), (str "a", str "2")]
    ∧ formDataGet (parseFormData (str "a=1&a=2")) (str "a") = some (str "1")
    ∧ str "1" ≠ str "2" :=
  ⟨by decide, by decide, by decide⟩

/-- C3 amended: for every form-encoded body in which a field name repeats,
the lookup yields the value from the first occurrence in the body
(first-write-wins). -/
theorem formData_first_write_wins (body k v : Str) (l₁ l₂ : List (Str × Str))
    (h : parseFormData body = l₁ ++ (k, v) :: l₂)
    (hk : ∀ q ∈ l₁, q.1 ≠ k) :
    formDataGet (parseFormData body) k = some v := by
  rw [formDataGet, h, find?_first_key k v l₁ l₂ hk]
  rfl

/-- Witness for the amended C3 at the body `b=0&a=1&a=2`: the duplicate key
`a` resolves to its first value `1`. -/
theorem formData_first_write_wins_witness :
    formDataGet (parseFormData (str "b=0&a=1&a=2")) (str "a") = some (str "1") :=
  formData_first_write_wins (str "b=0&a=1&a=2") (str "a") (str "1")
    [(str "b", str "0")] [(str "a", str "2")] (by decide) (by decide)

/-- C1 is violated by the code: with working directory `/srv` (public root
`/srv/public`), the request `/public/../public2/secret` resolves to
`/srv/public2/secret` — a file in a SIBLING directory of the root, not a
descendant of it — yet the `startsWith(PUBLIC_PATH)` string check passes and
the dispatcher serves the file with status 200.  The spec's own example
`/public/../server-config` is rejected, because that resolved path does not
share the `/srv/public` string prefix. -/
theorem static_sibling_escape_served :
    serverHandle (fun p => p == str "/srv/public2/secret")
        (fun p => p == str "/srv/public2/secret") (str "/srv")
        ⟨str "/public/../public2/secret", str "GET", str "h"⟩
      = .ok (.staticFile (str "application/octet-stream") (str "/srv/public2/secret"))
    ∧ specIsDescendant (str "/srv/public2/secret") (PUBLIC_PATH (str "/srv")) = false
    ∧ serverHandle (fun p => p == str "/srv/server-config")
        (fun p => p == str "/srv/server-config") (str "/srv")
        ⟨str "/public/../server-config", str "GET", str "h"⟩
      = .ok .notFoundStatic :=
  ⟨rfl, by decide, rfl⟩

/-- C2 is violated by the code: the bare root URL `/` ends with `/` and the
trailing-slash branch has no root exception, so `GET /` is answered with a
301 whose target path is empty (`Location: http://example.com`) and the
route table's own `/` entry — which matches the pathname `/` and allows GET,
and would invoke the `index` handler — is unreachable. -/
theorem root_redirect_shadows_index_route :
    serverHandle (fun _ => false) (fun _ => false) (str "/srv")
        ⟨str "/", str "GET", str "example.com"⟩
      = .ok (.redirectTo { status := 301, location := str "http://example.com", body := [] })
    ∧ scanRoutes (str "GET") (str "/") routes = .invoke "index" [] :=
  ⟨rfl, rfl⟩

/-- C7 is violated by the code: when `/srv/public/app.css` exists at the
`fs.access` existence check but is gone by the `fs.readFile` call, the
rejection of `readFile` propagates out of the request handler uncaught
(`Except.error`) — no 404 or other failure response is written.  When the
file survives to the read, the same request is served normally. -/
theorem static_race_uncaught_read_failure :
    serverHandle (fun p => p == str "/srv/public/app.css") (fun _ => false) (str "/srv")
        ⟨str "/public/app.css", str "GET", str "h"⟩
      = .error .readFileFailed
    ∧ serverHandle (fun p => p == str "/srv/public/app.css")
        (fun p => p == str "/srv/public/app.css") (str "/srv")
        ⟨str "/public/app.css", str "GET", str "h"⟩
      = .ok (.staticFile (str "text/css") (str "/srv/public/app.css")) :=
  ⟨rfl, rfl⟩

/-- C8: the redirect helper defaults to status 302 when no code is given and
uses the given code otherwise; in both cases the `Location` header is the
absolute http URL concatenating the request's Host header and the given path,
and the body is empty. -/
theorem redirect_contract (host p : Str) :
    redirect host p none
      = { status := 302, location := str "http://" ++ host ++ p, body := [] }
    ∧ ∀ c : Nat, redirect host p (some c)
      = { status := c, location := str "http://" ++ host ++ p, body := [] } :=
  ⟨rfl, fun _ => rfl⟩

/-- C9: the body `name=Harry+Potter&house=Gryffindor` parses with the plus
signs decoded to spaces, and looking up any key other than the two present
ones yields `none` (FormData.get returns null for a missing key), not an
error. -/
theorem form_body_roundtrip :
    formDataGet (parseFormData (str "name=Harry+Potter&house=Gryffindor")) (str "name")
      = some (str "Harry Potter")
    ∧ formDataGet (parseFormData (str "name=Harry+Potter&house=Gryffindor")) (str "house")
      = some (str "Gryffindor")
    ∧ ∀ k : Str, k ≠ str "name" → k ≠ str "house" →
        formDataGet (parseFormData (str "name=Harry+Potter&house=Gryffindor")) k = none := by
  refine ⟨by decide, by decide, fun k h1 h2 => ?_⟩
  have hp : parseFormData (str "name=Harry+Potter&house=Gryffindor")
      = [(str "name", str "Harry Potter"), (str "house", str "Gryffindor")] := by decide
  have b1 : (str "name" == k) = false := beq_eq_false_iff_ne.mpr (Ne.symm h1)
  have b2 : (str "house" == k) = false := beq_eq_false_iff_ne.mpr (Ne.symm h2)
  rw [formDataGet, hp, List.find?_cons_of_neg _ (by simp [b1]),
    List.find?_cons_of_neg _ (by simp [b2])]
  rfl

/-- Witness for C9's missing-key clause at the absent key `id`. -/
theorem form_body_roundtrip_witness :
    formDataGet (parseFormData (str "name=Harry+Potter&house=Gryffindor")) (str "id") = none :=
  form_body_roundtrip.2.2 (str "id") (by decide) (by decide)

/-- C10: the trailing-slash check inspects the full raw URL including the
query string while route matching uses only the pathname — so
`GET /students?q=/` is answered by a 301 to `/students?q=` (no handler runs),
while `GET /students?order=abc` is dispatched to the `studentList` handler of
the `/students` route. -/
theorem query_slash_full_url_dispatch :
    serverHandle (fun _ => false) (fun _ => false) (str "/srv")
        ⟨str "/students?q=/", str "GET", str "h"⟩
      = .ok (.redirectTo { status := 301, location := str "http://h/students?q=", body := [] })
    ∧ serverHandle (fun _ => false) (fun _ => false) (str "/srv")
        ⟨str "/students?order=abc", str "GET", str "h"⟩
      = .ok (.invoke "studentList" []) :=
  ⟨rfl, rfl⟩
